import Mathlib

/-!
Verification of the `boundedcache` Go package: a bounded generational
key-value cache with two generations (`freshItems` and `staleItems`).
The repository holds two implementations: the newer type-parameterized
one (`NewBoundedCache`, `Add`, `Get`, `Peek`, `GetOrCreate`, `Len`,
`Purge`, `MaxItems`, all funneling through `addLocked`) and an older
any-typed one (modelled here in namespace `Old`).  Go maps over `string`
keys are modelled by association lists with no duplicate keys (`SMap`);
the locks are erased, giving the sequential semantics of each operation.
-/

set_option autoImplicit false

universe u

variable {V : Type u}

/-- Lookup of a key in an association list: the value of the first entry
whose key matches, mirroring lookup in a Go `map[string]V`. -/
def lookupKey (k : String) : List (String × V) → Option V
  | [] => none
  | e :: rest => if e.1 = k then some e.2 else lookupKey k rest

/-- Removal of every entry with the given key from an association list,
mirroring `delete` on a Go `map[string]V`. -/
def eraseKey (k : String) : List (String × V) → List (String × V)
  | [] => []
  | e :: rest => if e.1 = k then eraseKey k rest else e :: eraseKey k rest

/-- Finite map from `String` to `V` with no duplicate keys, the model of
a Go `map[string]V`. -/
structure SMap (V : Type u) where
  entries : List (String × V)
  nodupKeys : (entries.map Prod.fst).Nodup

namespace SMap

/-- The empty map, as produced by `make(map[string]V)`. -/
def empty : SMap V := ⟨[], List.nodup_nil⟩

/-- Number of entries, mirroring Go `len(m)`. -/
def size (m : SMap V) : Nat := m.entries.length

/-- Lookup, mirroring Go `v, ok := m[k]`. -/
def lookup (k : String) (m : SMap V) : Option V := lookupKey k m.entries

/-- Removal, mirroring Go `delete(m, k)`. -/
def erase (k : String) (m : SMap V) : SMap V :=
  ⟨eraseKey k m.entries, by
    have hmem : ∀ (l : List (String × V)) (x : String),
        x ∈ (eraseKey k l).map Prod.fst → x ∈ l.map Prod.fst := by
      intro l
      induction l with
      | nil => intro x hx; simp [eraseKey] at hx
      | cons e rest ih =>
        intro x hx
        by_cases he : e.1 = k
        · simp only [eraseKey, if_pos he] at hx
          exact List.mem_cons_of_mem _ (ih x hx)
        · simp only [eraseKey, if_neg he, List.map_cons, List.mem_cons] at hx ⊢
          rcases hx with hx | hx
          · exact Or.inl hx
          · exact Or.inr (ih x hx)
    have hnd : ∀ l : List (String × V), (l.map Prod.fst).Nodup →
        ((eraseKey k l).map Prod.fst).Nodup := by
      intro l
      induction l with
      | nil => intro h; simp [eraseKey]
      | cons e rest ih =>
        intro hl
        rw [List.map_cons, List.nodup_cons] at hl
        by_cases he : e.1 = k
        · simp only [eraseKey, if_pos he]
          exact ih hl.2
        · simp only [eraseKey, if_neg he, List.map_cons, List.nodup_cons]
          exact ⟨fun hc => hl.1 (hmem rest e.1 hc), ih hl.2⟩
    exact hnd m.entries m.nodupKeys⟩

/-- Insertion/overwrite, mirroring Go `m[k] = v`. -/
def insert (k : String) (v : V) (m : SMap V) : SMap V :=
  ⟨(k, v) :: (m.erase k).entries, by
    rw [List.map_cons, List.nodup_cons]
    refine ⟨?_, (m.erase k).nodupKeys⟩
    have hkey : ∀ l : List (String × V), k ∉ (eraseKey k l).map Prod.fst := by
      intro l
      induction l with
      | nil => simp [eraseKey]
      | cons e rest ih =>
        by_cases he : e.1 = k
        · simpa only [eraseKey, if_pos he] using ih
        · simp only [eraseKey, if_neg he, List.map_cons, List.mem_cons]
          intro hc
          rcases hc with hc | hc
          · exact he hc.symm
          · exact ih hc
    exact hkey m.entries⟩

instance [DecidableEq V] : DecidableEq (SMap V) := fun a b =>
  decidable_of_iff (a.entries = b.entries)
    ⟨fun h => by cases a; cases b; simpa using h, fun h => by rw [h]⟩

end SMap

/-- State of the type-parameterized cache `BoundedCache[V]` from the
source: two generations of entries plus the per-generation capacity
`maxItemMapLen`.  The `sync.RWMutex` field is erased. -/
structure BoundedCache (V : Type u) where
  staleItems : SMap V
  freshItems : SMap V
  maxItemMapLen : Nat

instance {V : Type u} [DecidableEq V] : DecidableEq (BoundedCache V) := fun a b =>
  decidable_of_iff (a.staleItems = b.staleItems ∧ a.freshItems = b.freshItems ∧
      a.maxItemMapLen = b.maxItemMapLen)
    ⟨fun ⟨h1, h2, h3⟩ => by cases a; cases b; simp_all,
      fun h => by rw [h]; exact ⟨rfl, rfl, rfl⟩⟩

/-- Constructor `NewBoundedCache[V](maxItems)`: fails for `maxItems < 1`,
otherwise yields an empty cache with `maxItemMapLen = (maxItems + 1) / 2`
(Go integer division; under the guard `maxItems ≥ 1` it agrees with the
natural-number division used here). -/
def NewBoundedCache (V : Type u) (maxItems : Int) : Option (BoundedCache V) :=
  if maxItems < 1 then none
  else some ⟨SMap.empty, SMap.empty, (maxItems.toNat + 1) / 2⟩

/-- Method `MaxItems()`. -/
def MaxItems (b : BoundedCache V) : Nat := b.maxItemMapLen * 2

/-- Method `Len()`: `len(freshItems) + len(staleItems)`. -/
def Len (b : BoundedCache V) : Nat := b.freshItems.size + b.staleItems.size

/-- Method `Purge()`: both generations replaced by fresh empty maps. -/
def Purge (b : BoundedCache V) : BoundedCache V :=
  { b with staleItems := SMap.empty, freshItems := SMap.empty }

/-- Method `addLocked(key, val)`: if the fresh generation is at capacity,
record whether the stale generation is non-empty (`evicted`), move the
fresh map into the stale slot and start a new empty fresh map; then store
`key ↦ val` in the fresh map.  Returns the updated cache and `evicted`. -/
def addLocked (b : BoundedCache V) (key : String) (val : V) : BoundedCache V × Bool :=
  if b.freshItems.size ≥ b.maxItemMapLen then
    (⟨b.freshItems, (SMap.empty).insert key val, b.maxItemMapLen⟩, 0 < b.staleItems.size)
  else
    ({ b with freshItems := b.freshItems.insert key val }, false)

/-- Method `Add(key, val)`: takes the exclusive lock and delegates to
`addLocked`. -/
def BoundedCache.Add (b : BoundedCache V) (key : String) (val : V) : BoundedCache V × Bool :=
  addLocked b key val

/-- Method `Get(key)`: fresh hit is a pure read; a stale hit deletes the
key from the stale map and reinserts it through `addLocked`; a miss
changes nothing.  Result components are `(value-if-found, evicted,
updated cache)`. -/
def Get (b : BoundedCache V) (key : String) : Option V × Bool × BoundedCache V :=
  match b.freshItems.lookup key with
  | some val => (some val, false, b)
  | none =>
    match b.staleItems.lookup key with
    | some val =>
      let b1 : BoundedCache V := { b with staleItems := b.staleItems.erase key }
      let r := addLocked b1 key val
      (some val, r.2, r.1)
    | none => (none, false, b)

/-- Method `Peek(key)`: shared lock only, no mutation.  Returns
`some (value, staleFlag)` when found, `none` otherwise; the flag is
`true` exactly when the value was read from the stale generation. -/
def Peek (b : BoundedCache V) (key : String) : Option (V × Bool) :=
  match b.freshItems.lookup key with
  | some val => some (val, false)
  | none =>
    match b.staleItems.lookup key with
    | some val => some (val, true)
    | none => none

/-- Method `GetOrCreate(key, create)`: fresh fast path, then stale
promotion, then a re-check of the fresh map, and only then `create()`
followed by `addLocked`.  Result components are `(value, created,
evicted, updated cache)`. -/
def GetOrCreate (b : BoundedCache V) (key : String) (create : Unit → V) :
    (V × Bool × Bool) × BoundedCache V :=
  match b.freshItems.lookup key with
  | some val => ((val, false, false), b)
  | none =>
    match b.staleItems.lookup key with
    | some val =>
      let b1 : BoundedCache V := { b with staleItems := b.staleItems.erase key }
      let r := addLocked b1 key val
      ((val, false, r.2), r.1)
    | none =>
      match b.freshItems.lookup key with
      | some val => ((val, false, false), b)
      | none =>
        let val := create ()
        let r := addLocked b key val
        ((val, true, r.2), r.1)

/-- Instrumented `GetOrCreate` that also counts how many times `create`
is invoked; each syntactic call site of `create()` in the source
contributes one invocation. -/
def GetOrCreateCount (b : BoundedCache V) (key : String) (create : Unit → V) :
    ((V × Bool × Bool) × BoundedCache V) × Nat :=
  match b.freshItems.lookup key with
  | some val => (((val, false, false), b), 0)
  | none =>
    match b.staleItems.lookup key with
    | some val =>
      let b1 : BoundedCache V := { b with staleItems := b.staleItems.erase key }
      let r := addLocked b1 key val
      (((val, false, r.2), r.1), 0)
    | none =>
      match b.freshItems.lookup key with
      | some val => (((val, false, false), b), 0)
      | none =>
        let val := create ()
        let r := addLocked b key val
        (((val, true, r.2), r.1), 1)

/-- Public operations of the type-parameterized cache, as events of a
sequential history. -/
inductive CacheOp (V : Type u) where
  | add (key : String) (val : V)
  | get (key : String)
  | getOrCreate (key : String) (create : Unit → V)
  | peek (key : String)
  | purge

/-- Classifier for `Add` events. -/
def CacheOp.isAdd {V : Type u} : CacheOp V → Bool
  | .add _ _ => true
  | _ => false

/-- State transition of one public operation.  `Peek` holds only the
shared lock and performs no assignment, so it leaves the state as is. -/
def applyOp (b : BoundedCache V) : CacheOp V → BoundedCache V
  | .add key val => (BoundedCache.Add b key val).1
  | .get key => (Get b key).2.2
  | .getOrCreate key create => (GetOrCreate b key create).2
  | .peek _ => b
  | .purge => Purge b

/-- A cache state is reachable when it arises from a successful
`NewBoundedCache` call followed by some sequence of public operations. -/
def Reachable (b : BoundedCache V) : Prop :=
  ∃ (maxItems : Int) (b0 : BoundedCache V) (ops : List (CacheOp V)),
    NewBoundedCache V maxItems = some b0 ∧ b = ops.foldl applyOp b0

/-- Reachability through histories that contain no `Add` event. -/
def AddFreeReachable (b : BoundedCache V) : Prop :=
  ∃ (maxItems : Int) (b0 : BoundedCache V) (ops : List (CacheOp V)),
    NewBoundedCache V maxItems = some b0 ∧ (∀ op ∈ ops, op.isAdd = false) ∧
    b = ops.foldl applyOp b0

/-- Size invariant of the cache: per-generation capacity is at least one
and both generations respect it. -/
def SizeInv (b : BoundedCache V) : Prop :=
  1 ≤ b.maxItemMapLen ∧ b.freshItems.size ≤ b.maxItemMapLen ∧
    b.staleItems.size ≤ b.maxItemMapLen

/-- Key-disjointness of the two generations. -/
def GensDisjoint (b : BoundedCache V) : Prop :=
  ∀ k : String, (b.freshItems.lookup k).isSome → b.staleItems.lookup k = none

/-- One `Add` call viewed as a state transformer. -/
def addStep (key : String) (val : V) (b : BoundedCache V) : BoundedCache V :=
  (BoundedCache.Add b key val).1

namespace Old

/-- Constructor `New(maxItems)` of the older any-typed implementation
(`src/cache.go`), modelled at the same key and value types: fails for
`maxItems < 2`, and uses `maxItems / 2` (rounding down). -/
def New (V : Type u) (maxItems : Int) : Option (BoundedCache V) :=
  if maxItems < 2 then none
  else some ⟨SMap.empty, SMap.empty, maxItems.toNat / 2⟩

/-- Method `addLocked` of the older implementation: on rotation it sets
`evicted = true` unconditionally, regardless of whether the discarded
stale generation held any entries. -/
def addLocked (b : BoundedCache V) (key : String) (val : V) : BoundedCache V × Bool :=
  if b.freshItems.size ≥ b.maxItemMapLen then
    (⟨b.freshItems, (SMap.empty).insert key val, b.maxItemMapLen⟩, true)
  else
    ({ b with freshItems := b.freshItems.insert key val }, false)

/-- Method `Add` of the older implementation. -/
def Add (b : BoundedCache V) (key : String) (val : V) : BoundedCache V × Bool :=
  Old.addLocked b key val

/-- Method `Get` of the older implementation. -/
def Get (b : BoundedCache V) (key : String) : Option V × Bool × BoundedCache V :=
  match b.freshItems.lookup key with
  | some val => (some val, false, b)
  | none =>
    match b.staleItems.lookup key with
    | some val =>
      let b1 : BoundedCache V := { b with staleItems := b.staleItems.erase key }
      let r := Old.addLocked b1 key val
      (some val, r.2, r.1)
    | none => (none, false, b)

/-- Method `GetOrCreate` of the older implementation. -/
def GetOrCreate (b : BoundedCache V) (key : String) (create : Unit → V) :
    (V × Bool × Bool) × BoundedCache V :=
  match b.freshItems.lookup key with
  | some val => ((val, false, false), b)
  | none =>
    match b.staleItems.lookup key with
    | some val =>
      let b1 : BoundedCache V := { b with staleItems := b.staleItems.erase key }
      let r := Old.addLocked b1 key val
      ((val, false, r.2), r.1)
    | none =>
      match b.freshItems.lookup key with
      | some val => ((val, false, false), b)
      | none =>
        let val := create ()
        let r := Old.addLocked b key val
        ((val, true, r.2), r.1)

/-- Method `Len` of the older implementation. -/
def Len (b : BoundedCache V) : Nat := b.freshItems.size + b.staleItems.size

/-- Method `Purge` of the older implementation. -/
def Purge (b : BoundedCache V) : BoundedCache V :=
  { b with staleItems := SMap.empty, freshItems := SMap.empty }

/-- Method `MaxItems` of the older implementation. -/
def MaxItems (b : BoundedCache V) : Nat := b.maxItemMapLen * 2

end Old

/-- Cache produced by `NewBoundedCache[Nat](1)` (and by both
constructors for `maxItems = 2`): empty, `maxItemMapLen = 1`. -/
def cexBase : BoundedCache Nat := ⟨SMap.empty, SMap.empty, 1⟩

/-- State after `Add("a", 0)` on `cexBase`. -/
def cexAdd1 : BoundedCache Nat := (BoundedCache.Add cexBase "a" 0).1

/-- State after a second identical `Add("a", 0)`. -/
def cexAdd2 : BoundedCache Nat := (BoundedCache.Add cexAdd1 "a" 0).1

/-- State reached from `cexBase` by one `GetOrCreate` event only. -/
def promoState : BoundedCache Nat :=
  applyOp cexBase (CacheOp.getOrCreate "a" (fun _ => 0))

theorem lookupKey_nil (k : String) : lookupKey k ([] : List (String × V)) = none := rfl

theorem lookupKey_cons (k : String) (e : String × V) (rest : List (String × V)) :
    lookupKey k (e :: rest) = if e.1 = k then some e.2 else lookupKey k rest := rfl

theorem eraseKey_nil (k : String) : eraseKey k ([] : List (String × V)) = [] := rfl

theorem eraseKey_cons (k : String) (e : String × V) (rest : List (String × V)) :
    eraseKey k (e :: rest) = if e.1 = k then eraseKey k rest else e :: eraseKey k rest := rfl

theorem lookupKey_eraseKey_self (k : String) (l : List (String × V)) :
    lookupKey k (eraseKey k l) = none := by
  induction l with
  | nil => simp [eraseKey, lookupKey]
  | cons e rest ih =>
    by_cases h : e.1 = k <;> simp [eraseKey_cons, lookupKey_cons, h, ih]

theorem lookupKey_eraseKey_ne (k k' : String) (l : List (String × V)) (h : k' ≠ k) :
    lookupKey k' (eraseKey k l) = lookupKey k' l := by
  induction l with
  | nil => simp [eraseKey]
  | cons e rest ih =>
    by_cases he : e.1 = k
    · simp [eraseKey_cons, lookupKey_cons, he, Ne.symm h, ih]
    · by_cases he' : e.1 = k' <;> simp [eraseKey_cons, lookupKey_cons, he, he', h, ih]

theorem length_eraseKey_le (k : String) (l : List (String × V)) :
    (eraseKey k l).length ≤ l.length := by
  induction l with
  | nil => simp [eraseKey]
  | cons e rest ih =>
    by_cases h : e.1 = k
    · simp only [eraseKey_cons, if_pos h, List.length_cons]
      exact Nat.le_trans ih (Nat.le_succ _)
    · simp only [eraseKey_cons, if_neg h, List.length_cons]
      exact Nat.succ_le_succ ih

theorem lookupKey_eq_none_iff (k : String) (l : List (String × V)) :
    lookupKey k l = none ↔ k ∉ l.map Prod.fst := by
  induction l with
  | nil => simp [lookupKey]
  | cons e rest ih =>
    by_cases h : e.1 = k
    · simp [lookupKey_cons, h]
    · rw [List.map_cons]
      simp only [lookupKey_cons, if_neg h, List.mem_cons]
      rw [ih]
      constructor
      · intro hn hc
        rcases hc with hc | hc
        · exact h hc.symm
        · exact hn hc
      · intro hn hc
        exact hn (Or.inr hc)

theorem eraseKey_of_lookup_none (k : String) (l : List (String × V))
    (h : lookupKey k l = none) : eraseKey k l = l := by
  induction l with
  | nil => simp [eraseKey]
  | cons e rest ih =>
    by_cases he : e.1 = k
    · simp [lookupKey_cons, he] at h
    · simp only [lookupKey_cons, if_neg he] at h
      simp [eraseKey_cons, he, ih h]

theorem eraseKey_of_not_mem_keys (k : String) (l : List (String × V))
    (h : k ∉ l.map Prod.fst) : eraseKey k l = l :=
  eraseKey_of_lookup_none k l ((lookupKey_eq_none_iff k l).2 h)

theorem length_eraseKey_of_lookup_some (k : String) (v : V) (l : List (String × V))
    (hnd : (l.map Prod.fst).Nodup) (h : lookupKey k l = some v) :
    (eraseKey k l).length + 1 = l.length := by
  induction l with
  | nil => simp [lookupKey] at h
  | cons e rest ih =>
    rw [List.map_cons, List.nodup_cons] at hnd
    by_cases he : e.1 = k
    · have hrest : k ∉ rest.map Prod.fst := he ▸ hnd.1
      simp [eraseKey_cons, he, eraseKey_of_not_mem_keys k rest hrest]
    · simp only [lookupKey_cons, if_neg he] at h
      simp [eraseKey_cons, he, ih hnd.2 h]

namespace SMap

theorem ext_entries {a b : SMap V} (h : a.entries = b.entries) : a = b := by
  cases a; cases b; simpa using h

theorem lookup_empty (k : String) : (empty : SMap V).lookup k = none := rfl

theorem size_empty : (empty : SMap V).size = 0 := rfl

theorem entries_insert (k : String) (v : V) (m : SMap V) :
    (m.insert k v).entries = (k, v) :: eraseKey k m.entries := rfl

theorem lookup_insert_self (k : String) (v : V) (m : SMap V) :
    (m.insert k v).lookup k = some v := by
  simp [lookup, insert, lookupKey_cons]

theorem lookup_insert_ne (k k' : String) (v : V) (m : SMap V) (h : k' ≠ k) :
    (m.insert k v).lookup k' = m.lookup k' := by
  simp only [lookup, insert]
  rw [lookupKey_cons]
  simp only [if_neg (fun hc : k = k' => h hc.symm)]
  exact lookupKey_eraseKey_ne k k' m.entries h

theorem lookup_erase_self (k : String) (m : SMap V) :
    (m.erase k).lookup k = none := lookupKey_eraseKey_self k m.entries

theorem lookup_erase_ne (k k' : String) (m : SMap V) (h : k' ≠ k) :
    (m.erase k).lookup k' = m.lookup k' := lookupKey_eraseKey_ne k k' m.entries h

theorem size_insert_of_lookup_none (k : String) (v : V) (m : SMap V)
    (h : m.lookup k = none) : (m.insert k v).size = m.size + 1 := by
  simp [size, insert, erase, eraseKey_of_lookup_none k m.entries h]

theorem size_insert_of_lookup_some (k : String) (v w : V) (m : SMap V)
    (h : m.lookup k = some w) : (m.insert k v).size = m.size := by
  simp only [size, insert, erase, List.length_cons]
  exact length_eraseKey_of_lookup_some k w m.entries m.nodupKeys h

theorem size_insert_le (k : String) (v : V) (m : SMap V) :
    (m.insert k v).size ≤ m.size + 1 := by
  simp only [size, insert, erase, List.length_cons]
  exact Nat.succ_le_succ (length_eraseKey_le k m.entries)

theorem size_erase_le (k : String) (m : SMap V) : (m.erase k).size ≤ m.size :=
  length_eraseKey_le k m.entries

theorem size_insert_empty (k : String) (v : V) :
    ((empty : SMap V).insert k v).size = 1 := rfl

end SMap

theorem size_pos_of_lookup_some (k : String) (v : V) (m : SMap V)
    (h : m.lookup k = some v) : 1 ≤ m.size := by
  rcases m with ⟨entries, nd⟩
  cases entries with
  | nil => simp [SMap.lookup, lookupKey] at h
  | cons e rest => simp [SMap.size]

theorem addLocked_of_full (b : BoundedCache V) (key : String) (val : V)
    (h : b.maxItemMapLen ≤ b.freshItems.size) :
    addLocked b key val =
      (⟨b.freshItems, SMap.insert key val SMap.empty, b.maxItemMapLen⟩,
        decide (0 < b.staleItems.size)) := by
  simp [addLocked, h]

theorem addLocked_of_not_full (b : BoundedCache V) (key : String) (val : V)
    (h : b.freshItems.size < b.maxItemMapLen) :
    addLocked b key val =
      ({ b with freshItems := b.freshItems.insert key val }, false) := by
  simp [addLocked, Nat.not_le.2 h]

theorem maxItemMapLen_addLocked (b : BoundedCache V) (key : String) (val : V) :
    (addLocked b key val).1.maxItemMapLen = b.maxItemMapLen := by
  by_cases h : b.maxItemMapLen ≤ b.freshItems.size
  · rw [addLocked_of_full b key val h]
  · rw [addLocked_of_not_full b key val (Nat.not_le.1 h)]

theorem sizeInv_addLocked (b : BoundedCache V) (key : String) (val : V)
    (h : SizeInv b) : SizeInv (addLocked b key val).1 := by
  obtain ⟨h1, hf, hs⟩ := h
  by_cases hfull : b.maxItemMapLen ≤ b.freshItems.size
  · rw [addLocked_of_full b key val hfull]
    exact ⟨h1, by simpa [SMap.size_insert_empty] using h1, hf⟩
  · rw [addLocked_of_not_full b key val (Nat.not_le.1 hfull)]
    exact ⟨h1,
      Nat.le_trans (SMap.size_insert_le key val b.freshItems) (Nat.not_le.1 hfull), hs⟩

theorem sizeInv_eraseStale (b : BoundedCache V) (key : String) (h : SizeInv b) :
    SizeInv { b with staleItems := b.staleItems.erase key } :=
  ⟨h.1, h.2.1, Nat.le_trans (SMap.size_erase_le key b.staleItems) h.2.2⟩

theorem sizeInv_applyOp (b : BoundedCache V) (op : CacheOp V) (h : SizeInv b) :
    SizeInv (applyOp b op) := by
  cases op with
  | add key val => exact sizeInv_addLocked b key val h
  | get key =>
    show SizeInv (Get b key).2.2
    unfold Get
    cases hf : b.freshItems.lookup key with
    | some val => exact h
    | none =>
      cases hs : b.staleItems.lookup key with
      | some val =>
        exact sizeInv_addLocked _ key val (sizeInv_eraseStale b key h)
      | none => exact h
  | getOrCreate key create =>
    show SizeInv (GetOrCreate b key create).2
    unfold GetOrCreate
    cases hf : b.freshItems.lookup key with
    | some val => exact h
    | none =>
      cases hs : b.staleItems.lookup key with
      | some val =>
        exact sizeInv_addLocked _ key val (sizeInv_eraseStale b key h)
      | none =>
        exact sizeInv_addLocked b key (create ()) h
  | peek key => exact h
  | purge =>
    refine ⟨h.1, ?_, ?_⟩ <;> simp [applyOp, Purge, SMap.size, SMap.empty]

theorem sizeInv_new (maxItems : Int) (b : BoundedCache V)
    (h : NewBoundedCache V maxItems = some b) : SizeInv b := by
  unfold NewBoundedCache at h
  by_cases hm : maxItems < 1
  · simp [hm] at h
  · simp only [hm, if_false] at h
    cases h
    refine ⟨?_, by simp [SMap.size, SMap.empty], by simp [SMap.size, SMap.empty]⟩
    have h1 : (1 : Int) ≤ maxItems := Int.not_lt.1 hm
    have h2 : 1 ≤ maxItems.toNat := by omega
    exact (Nat.one_le_div_iff (by norm_num)).2 (by omega)

theorem sizeInv_foldl (b0 : BoundedCache V) (ops : List (CacheOp V))
    (h : SizeInv b0) : SizeInv (ops.foldl applyOp b0) := by
  induction ops generalizing b0 with
  | nil => exact h
  | cons op rest ih => exact ih (applyOp b0 op) (sizeInv_applyOp b0 op h)

theorem sizeInv_reachable (b : BoundedCache V) (h : Reachable b) : SizeInv b := by
  obtain ⟨maxItems, b0, ops, hnew, hb⟩ := h
  rw [hb]
  exact sizeInv_foldl b0 ops (sizeInv_new maxItems b0 hnew)

theorem reachable_applyOp (b : BoundedCache V) (op : CacheOp V) (h : Reachable b) :
    Reachable (applyOp b op) := by
  obtain ⟨maxItems, b0, ops, hnew, hb⟩ := h
  refine ⟨maxItems, b0, ops ++ [op], hnew, ?_⟩
  rw [List.foldl_append, ← hb]
  rfl

/-- Claim C1: `addLocked` follows the rotation protocol exactly.  When
the fresh generation has reached `maxItemMapLen` it replaces the stale
generation by the current fresh one, restarts the fresh generation
holding only the new entry, and reports whether the discarded stale
generation was non-empty; otherwise it only inserts into the fresh
generation and reports `false`.  `Add` is `addLocked` under the lock, so
for every cache state `Add` returns `true` iff the insertion discarded a
non-empty stale generation. -/
theorem addLocked_rotation_protocol (b : BoundedCache V) (key : String) (val : V) :
    (b.maxItemMapLen ≤ b.freshItems.size →
      addLocked b key val =
        (⟨b.freshItems, SMap.insert key val SMap.empty, b.maxItemMapLen⟩,
          decide (0 < b.staleItems.size))) ∧
    (b.freshItems.size < b.maxItemMapLen →
      addLocked b key val =
        ({ b with freshItems := b.freshItems.insert key val }, false)) ∧
    BoundedCache.Add b key val = addLocked b key val ∧
    ((BoundedCache.Add b key val).2 = true ↔
      b.maxItemMapLen ≤ b.freshItems.size ∧ 0 < b.staleItems.size) := by
  refine ⟨addLocked_of_full b key val, addLocked_of_not_full b key val, rfl, ?_⟩
  show (addLocked b key val).2 = true ↔ _
  by_cases hfull : b.maxItemMapLen ≤ b.freshItems.size
  · rw [addLocked_of_full b key val hfull]
    simp [hfull]
  · rw [addLocked_of_not_full b key val (Nat.not_le.1 hfull)]
    simp [hfull]

theorem addLocked_rotation_protocol_witness :
    cexAdd1.maxItemMapLen ≤ cexAdd1.freshItems.size ∧
    addLocked cexAdd1 "b" 7 =
      (⟨cexAdd1.freshItems, SMap.insert "b" 7 SMap.empty, cexAdd1.maxItemMapLen⟩,
        decide (0 < cexAdd1.staleItems.size)) :=
  ⟨by decide, (addLocked_rotation_protocol cexAdd1 "b" 7).1 (by decide)⟩

/-- Claim C5: construction fails exactly for `maxItems < 1`; for every
`maxItems ≥ 1` it succeeds with an empty cache whose advertised capacity
is `2 * ceil(maxItems / 2)`, computed here as `2 * ((maxItems + 1) / 2)`
over the non-negative integers. -/
theorem newBoundedCache_spec (V : Type u) (maxItems : Int) :
    (NewBoundedCache V maxItems = none ↔ maxItems < 1) ∧
    (∀ b : BoundedCache V, NewBoundedCache V maxItems = some b →
      MaxItems b = 2 * ((maxItems.toNat + 1) / 2) ∧
      b.freshItems = SMap.empty ∧ b.staleItems = SMap.empty ∧ Len b = 0) := by
  constructor
  · unfold NewBoundedCache
    by_cases hm : maxItems < 1 <;> simp [hm]
  · intro b hb
    unfold NewBoundedCache at hb
    by_cases hm : maxItems < 1
    · simp [hm] at hb
    · simp only [hm, if_false, Option.some_inj] at hb
      subst hb
      exact ⟨Nat.mul_comm _ 2, rfl, rfl, rfl⟩

theorem newBoundedCache_spec_witness :
    NewBoundedCache Nat 1 = some cexBase ∧ MaxItems cexBase = 2 ∧
    (NewBoundedCache Nat 3).map MaxItems = some 4 ∧
    (NewBoundedCache Nat 100).map MaxItems = some 100 ∧
    NewBoundedCache Nat 0 = none := by
  have h1 := (newBoundedCache_spec Nat 1).2 cexBase rfl
  have h0 := (newBoundedCache_spec Nat 0).1.2 (by norm_num)
  exact ⟨rfl, h1.1.trans (by decide), by decide, by decide, h0⟩

/-- Claim C3: every reachable state satisfies the size bounds
`size(fresh) ≤ halfCapacity`, `size(stale) ≤ halfCapacity` and
`size(fresh) + size(stale) ≤ halfCapacity * 2`, and every public
operation leads to a reachable state again, hence preserves the bounds. -/
theorem reachable_size_bounds (b : BoundedCache V) (h : Reachable b) :
    b.freshItems.size ≤ b.maxItemMapLen ∧
    b.staleItems.size ≤ b.maxItemMapLen ∧
    b.freshItems.size + b.staleItems.size ≤ b.maxItemMapLen * 2 ∧
    (∀ op : CacheOp V, Reachable (applyOp b op) ∧
      (applyOp b op).freshItems.size ≤ (applyOp b op).maxItemMapLen ∧
      (applyOp b op).staleItems.size ≤ (applyOp b op).maxItemMapLen ∧
      (applyOp b op).freshItems.size + (applyOp b op).staleItems.size ≤
        (applyOp b op).maxItemMapLen * 2) := by
  obtain ⟨h1, hf, hs⟩ := sizeInv_reachable b h
  refine ⟨hf, hs, by omega, ?_⟩
  intro op
  obtain ⟨g1, gf, gs⟩ := sizeInv_applyOp b op ⟨h1, hf, hs⟩
  exact ⟨reachable_applyOp b op h, gf, gs, by omega⟩

theorem reachable_size_bounds_witness :
    Reachable cexAdd2 ∧
    cexAdd2.freshItems.size + cexAdd2.staleItems.size ≤ cexAdd2.maxItemMapLen * 2 :=
  have hr : Reachable cexAdd2 :=
    ⟨1, cexBase, [CacheOp.add "a" 0, CacheOp.add "a" 0], rfl, rfl⟩
  ⟨hr, (reachable_size_bounds cexAdd2 hr).2.2.1⟩

/-- Claim C2 is refuted by this reachable state: with requested capacity
1, two identical `Add("a", 0)` calls rotate the fresh generation onto
the stale one without deleting the key, leaving `"a"` resident in both
generations at once. -/
theorem add_duplicates_key_across_generations :
    NewBoundedCache Nat 1 = some cexBase ∧
    Reachable cexAdd2 ∧
    cexAdd2.freshItems.lookup "a" = some 0 ∧
    cexAdd2.staleItems.lookup "a" = some 0 := by
  refine ⟨rfl, ⟨1, cexBase, [CacheOp.add "a" 0, CacheOp.add "a" 0], rfl, rfl⟩, ?_, ?_⟩ <;>
    decide

theorem gensDisjoint_addLocked (b : BoundedCache V) (key : String) (val : V)
    (hf : b.freshItems.lookup key = none) (hs : b.staleItems.lookup key = none)
    (h : GensDisjoint b) : GensDisjoint (addLocked b key val).1 := by
  by_cases hfull : b.maxItemMapLen ≤ b.freshItems.size
  · rw [addLocked_of_full b key val hfull]
    intro k hk
    by_cases hkey : k = key
    · subst hkey; exact hf
    · rw [SMap.lookup_insert_ne key k val SMap.empty hkey] at hk
      simp [SMap.lookup_empty] at hk
  · rw [addLocked_of_not_full b key val (Nat.not_le.1 hfull)]
    intro k hk
    by_cases hkey : k = key
    · subst hkey; exact hs
    · rw [SMap.lookup_insert_ne key k val b.freshItems hkey] at hk
      exact h k hk

theorem gensDisjoint_eraseStale (b : BoundedCache V) (key : String)
    (h : GensDisjoint b) :
    GensDisjoint { b with staleItems := b.staleItems.erase key } := by
  intro k hk
  by_cases hkey : k = key
  · subst hkey
    exact SMap.lookup_erase_self k b.staleItems
  · rw [SMap.lookup_erase_ne key k b.staleItems hkey]
    exact h k hk

theorem gensDisjoint_applyOp (b : BoundedCache V) (op : CacheOp V)
    (hop : op.isAdd = false) (h : GensDisjoint b) : GensDisjoint (applyOp b op) := by
  cases op with
  | add key val => simp [CacheOp.isAdd] at hop
  | get key =>
    show GensDisjoint (Get b key).2.2
    unfold Get
    cases hgf : b.freshItems.lookup key with
    | some val => exact h
    | none =>
      cases hgs : b.staleItems.lookup key with
      | some val =>
        exact gensDisjoint_addLocked _ key val hgf
          (SMap.lookup_erase_self key b.staleItems) (gensDisjoint_eraseStale b key h)
      | none => exact h
  | getOrCreate key create =>
    show GensDisjoint (GetOrCreate b key create).2
    unfold GetOrCreate
    cases hgf : b.freshItems.lookup key with
    | some val => exact h
    | none =>
      cases hgs : b.staleItems.lookup key with
      | some val =>
        exact gensDisjoint_addLocked _ key val hgf
          (SMap.lookup_erase_self key b.staleItems) (gensDisjoint_eraseStale b key h)
      | none =>
        exact gensDisjoint_addLocked b key (create ()) hgf hgs h
  | peek key => exact h
  | purge => exact fun k hk => rfl

theorem gensDisjoint_foldl (ops : List (CacheOp V)) :
    ∀ b0 : BoundedCache V, (∀ op ∈ ops, op.isAdd = false) → GensDisjoint b0 →
      GensDisjoint (ops.foldl applyOp b0) := by
  induction ops with
  | nil => intro b0 _ h; exact h
  | cons op rest ih =>
    intro b0 hops h
    exact ih (applyOp b0 op) (fun o ho => hops o (List.mem_cons_of_mem op ho))
      (gensDisjoint_applyOp b0 op (hops op (List.mem_cons_self op rest)) h)

/-- Claim C2 amended: the generations stay key-disjoint in every state
reachable without `Add` events (promotion always deletes from the stale
generation first); an `Add` of a key whose copy sits in the other
generation can break disjointness, as the counterexample shows. -/
theorem addFree_reachable_gens_disjoint (b : BoundedCache V) (h : AddFreeReachable b) :
    ∀ (k : String) (v : V), b.freshItems.lookup k = some v →
      b.staleItems.lookup k = none := by
  obtain ⟨maxItems, b0, ops, hnew, hops, hb⟩ := h
  have h0 : GensDisjoint b0 := by
    unfold NewBoundedCache at hnew
    by_cases hm : maxItems < 1
    · simp [hm] at hnew
    · simp only [hm, if_false, Option.some_inj] at hnew
      subst hnew
      intro k hk
      rfl
  have hd : GensDisjoint b := hb ▸ gensDisjoint_foldl ops b0 hops h0
  intro k v hk
  exact hd k (by rw [hk]; rfl)

theorem addFree_reachable_gens_disjoint_witness :
    AddFreeReachable promoState ∧ promoState.freshItems.lookup "a" = some 0 ∧
    promoState.staleItems.lookup "a" = none := by
  have hr : AddFreeReachable promoState :=
    ⟨1, cexBase, [CacheOp.getOrCreate "a" (fun _ => 0)], rfl, by
      intro op hop
      rw [List.mem_singleton] at hop
      subst hop
      rfl, rfl⟩
  exact ⟨hr, by decide, addFree_reachable_gens_disjoint promoState hr "a" 0 (by decide)⟩

/-- Claim C4: `Get` returns a fresh hit as a pure read, promotes a stale
hit by deleting it from the stale generation and reinserting it through
the rotation protocol (returning whatever evicted flag that insertion
reports), and leaves the state unchanged on a miss. -/
theorem get_spec (b : BoundedCache V) (key : String) :
    (∀ v, b.freshItems.lookup key = some v → Get b key = (some v, false, b)) ∧
    (b.freshItems.lookup key = none → ∀ v, b.staleItems.lookup key = some v →
      Get b key =
        (some v,
          (addLocked { b with staleItems := b.staleItems.erase key } key v).2,
          (addLocked { b with staleItems := b.staleItems.erase key } key v).1)) ∧
    (b.freshItems.lookup key = none → b.staleItems.lookup key = none →
      Get b key = (none, false, b)) := by
  refine ⟨?_, ?_, ?_⟩
  · intro v hv
    unfold Get
    rw [hv]
  · intro hf v hs
    unfold Get
    rw [hf, hs]
  · intro hf hs
    unfold Get
    rw [hf, hs]

theorem get_spec_witness :
    cexAdd2.freshItems.lookup "a" = some 0 ∧ Get cexAdd2 "a" = (some 0, false, cexAdd2) :=
  ⟨by decide, (get_spec cexAdd2 "a").1 0 (by decide)⟩

/-- Claim C9: `Peek` performs no state change, and reports presence
correctly: a fresh hit yields the fresh value with flag `false`, a stale
hit yields the stale value with flag `true`, a miss yields `none`, and
the flag is `false` exactly when the key is resident in the fresh
generation. -/
theorem peek_spec (b : BoundedCache V) (key : String) :
    applyOp b (CacheOp.peek key) = b ∧
    (Peek b key = none ↔
      b.freshItems.lookup key = none ∧ b.staleItems.lookup key = none) ∧
    (∀ v, b.freshItems.lookup key = some v → Peek b key = some (v, false)) ∧
    (∀ v, b.freshItems.lookup key = none → b.staleItems.lookup key = some v →
      Peek b key = some (v, true)) ∧
    (∀ v st, Peek b key = some (v, st) →
      (st = false ↔ (b.freshItems.lookup key).isSome)) := by
  refine ⟨rfl, ?_, ?_, ?_, ?_⟩
  · unfold Peek
    cases hf : b.freshItems.lookup key with
    | some v => simp
    | none =>
      cases hs : b.staleItems.lookup key with
      | some v => simp
      | none => simp
  · intro v hv
    unfold Peek
    rw [hv]
  · intro v hf hs
    unfold Peek
    rw [hf, hs]
  · intro v st hp
    unfold Peek at hp
    cases hf : b.freshItems.lookup key with
    | some w =>
      rw [hf] at hp
      simp only [Option.some_inj, Prod.mk.injEq] at hp
      simp [← hp.2, hf]
    | none =>
      rw [hf] at hp
      cases hs : b.staleItems.lookup key with
      | some w =>
        rw [hs] at hp
        simp only [Option.some_inj, Prod.mk.injEq] at hp
        simp [← hp.2, hf]
      | none =>
        rw [hs] at hp
        simp at hp

theorem peek_spec_witness :
    cexAdd2.freshItems.lookup "a" = some 0 ∧ Peek cexAdd2 "a" = some (0, false) :=
  ⟨by decide, (peek_spec cexAdd2 "a").2.2.1 0 (by decide)⟩

/-- Claim C10: when a key is present in both generations, `Peek` and
`Get` both serve the fresh copy (`Peek` with flag `false`), the state is
left unchanged, and the stale copy silently remains in the stale map. -/
theorem fresh_shadows_stale (b : BoundedCache V) (key : String) (v w : V)
    (hf : b.freshItems.lookup key = some v) (hs : b.staleItems.lookup key = some w) :
    Peek b key = some (v, false) ∧
    Get b key = (some v, false, b) ∧
    (Get b key).2.2.staleItems.lookup key = some w := by
  have hg : Get b key = (some v, false, b) := by
    unfold Get
    rw [hf]
  refine ⟨?_, hg, ?_⟩
  · unfold Peek
    rw [hf]
  · rw [hg]
    exact hs

theorem fresh_shadows_stale_witness :
    cexAdd2.freshItems.lookup "a" = some 0 ∧ cexAdd2.staleItems.lookup "a" = some 0 ∧
    Peek cexAdd2 "a" = some (0, false) ∧ Get cexAdd2 "a" = (some 0, false, cexAdd2) :=
  ⟨by decide, by decide,
    (fresh_shadows_stale cexAdd2 "a" 0 0 (by decide) (by decide)).1,
    (fresh_shadows_stale cexAdd2 "a" 0 0 (by decide) (by decide)).2.1⟩

/-- Claim C6: in a sequential `GetOrCreate` call, `createFn` is invoked
at most once, and invoked (with `created = true` returned) exactly when
the key is absent from both generations, in which case its result is
inserted through the rotation protocol and returned; a fresh hit or a
promoted stale hit returns the existing value with `created = false`. -/
theorem getOrCreate_spec (b : BoundedCache V) (key : String) (create : Unit → V) :
    (∀ v, b.freshItems.lookup key = some v →
      GetOrCreate b key create = ((v, false, false), b)) ∧
    (b.freshItems.lookup key = none → ∀ v, b.staleItems.lookup key = some v →
      GetOrCreate b key create =
        ((v, false,
          (addLocked { b with staleItems := b.staleItems.erase key } key v).2),
          (addLocked { b with staleItems := b.staleItems.erase key } key v).1)) ∧
    (b.freshItems.lookup key = none → b.staleItems.lookup key = none →
      GetOrCreate b key create =
        ((create (), true, (addLocked b key (create ())).2),
          (addLocked b key (create ())).1)) ∧
    ((GetOrCreate b key create).1.2.1 = true ↔
      b.freshItems.lookup key = none ∧ b.staleItems.lookup key = none) ∧
    (GetOrCreateCount b key create).1 = GetOrCreate b key create ∧
    (GetOrCreateCount b key create).2 ≤ 1 ∧
    ((GetOrCreateCount b key create).2 = 1 ↔
      (GetOrCreate b key create).1.2.1 = true) := by
  refine ⟨?_, ?_, ?_, ?_, ?_, ?_, ?_⟩
  · intro v hv
    unfold GetOrCreate
    rw [hv]
  · intro hf v hs
    unfold GetOrCreate
    rw [hf, hs]
  · intro hf hs
    unfold GetOrCreate
    rw [hf, hs]
  · unfold GetOrCreate
    cases hf : b.freshItems.lookup key with
    | some v => simp [hf]
    | none =>
      cases hs : b.staleItems.lookup key with
      | some v => simp [hs]
      | none => simp
  · unfold GetOrCreate GetOrCreateCount
    cases hf : b.freshItems.lookup key with
    | some v => rfl
    | none =>
      cases hs : b.staleItems.lookup key with
      | some v => rfl
      | none => rfl
  · unfold GetOrCreateCount
    cases hf : b.freshItems.lookup key with
    | some v => simp
    | none =>
      cases hs : b.staleItems.lookup key with
      | some v => simp
      | none => simp
  · unfold GetOrCreate GetOrCreateCount
    cases hf : b.freshItems.lookup key with
    | some v => simp
    | none =>
      cases hs : b.staleItems.lookup key with
      | some v => simp
      | none => simp

theorem getOrCreate_spec_witness :
    cexBase.freshItems.lookup "a" = none ∧ cexBase.staleItems.lookup "a" = none ∧
    GetOrCreate cexBase "a" (fun _ => 5) =
      ((5, true, (addLocked cexBase "a" 5).2), (addLocked cexBase "a" 5).1) :=
  ⟨rfl, rfl, (getOrCreate_spec cexBase "a" (fun _ => 5)).2.2.1 rfl rfl⟩

/-- Claim C7 is refuted by this run: with requested capacity 1, the
second identical `Add("a", 0)` changes `Len` from 1 to 2 (the rotation
stacks the key on top of its own copy, now in the stale generation). -/
theorem repeated_add_changes_len :
    NewBoundedCache Nat 1 = some cexBase ∧
    Len cexAdd1 = 1 ∧ Len cexAdd2 = 2 ∧ Len cexAdd2 ≠ Len cexAdd1 := by
  refine ⟨rfl, ?_, ?_, ?_⟩ <;> decide

theorem addStep_eq (key : String) (val : V) (b : BoundedCache V) :
    addStep key val b = (addLocked b key val).1 := rfl

theorem maxItemMapLen_addStep (key : String) (val : V) (b : BoundedCache V) :
    (addStep key val b).maxItemMapLen = b.maxItemMapLen :=
  maxItemMapLen_addLocked b key val

theorem lookup_addStep_self (key : String) (val : V) (b : BoundedCache V) :
    (addStep key val b).freshItems.lookup key = some val := by
  by_cases hfull : b.maxItemMapLen ≤ b.freshItems.size
  · rw [addStep_eq, addLocked_of_full b key val hfull]
    exact SMap.lookup_insert_self key val SMap.empty
  · rw [addStep_eq, addLocked_of_not_full b key val (Nat.not_le.1 hfull)]
    exact SMap.lookup_insert_self key val b.freshItems

theorem freshSize_addStep_le (key : String) (val : V) (b : BoundedCache V)
    (h1 : 1 ≤ b.maxItemMapLen) :
    (addStep key val b).freshItems.size ≤ b.maxItemMapLen := by
  by_cases hfull : b.maxItemMapLen ≤ b.freshItems.size
  · rw [addStep_eq, addLocked_of_full b key val hfull]
    simpa [SMap.size_insert_empty] using h1
  · rw [addStep_eq, addLocked_of_not_full b key val (Nat.not_le.1 hfull)]
    exact Nat.le_trans (SMap.size_insert_le key val b.freshItems) (Nat.not_le.1 hfull)

theorem len_addStep_addStep_of_fresh (key : String) (val : V) (c : BoundedCache V)
    (h1 : 1 ≤ c.maxItemMapLen)
    (hc1 : c.freshItems.lookup key = some val)
    (hc2 : c.freshItems.size ≤ c.maxItemMapLen) :
    Len (addStep key val (addStep key val c)) = Len (addStep key val c) := by
  by_cases hfull : c.maxItemMapLen ≤ c.freshItems.size
  · have hsize : c.freshItems.size = c.maxItemMapLen := Nat.le_antisymm hc2 hfull
    have hstep1 : addStep key val c =
        ⟨c.freshItems, SMap.insert key val SMap.empty, c.maxItemMapLen⟩ := by
      rw [addStep_eq, addLocked_of_full c key val hfull]
    rw [hstep1]
    by_cases h2 : c.maxItemMapLen ≤ 1
    · have hhalf : c.maxItemMapLen = 1 := Nat.le_antisymm h2 h1
      have hstep2 : addStep key val
          (⟨c.freshItems, SMap.insert key val SMap.empty, c.maxItemMapLen⟩ :
            BoundedCache V) =
          ⟨SMap.insert key val SMap.empty, SMap.insert key val SMap.empty,
            c.maxItemMapLen⟩ := by
        rw [addStep_eq,
          addLocked_of_full _ key val (by simp [SMap.size_insert_empty, hhalf])]
      rw [hstep2]
      simp [Len, SMap.size_insert_empty, hsize, hhalf]
    · have hstep2 : addStep key val
          (⟨c.freshItems, SMap.insert key val SMap.empty, c.maxItemMapLen⟩ :
            BoundedCache V) =
          ⟨c.freshItems, (SMap.insert key val SMap.empty).insert key val,
            c.maxItemMapLen⟩ := by
        rw [addStep_eq,
          addLocked_of_not_full _ key val (by simp [SMap.size_insert_empty]; omega)]
      rw [hstep2]
      simp [Len,
        SMap.size_insert_of_lookup_some key val val _
          (SMap.lookup_insert_self key val SMap.empty)]
  · have hlt : c.freshItems.size < c.maxItemMapLen := Nat.not_le.1 hfull
    have hsize2 : (c.freshItems.insert key val).size = c.freshItems.size :=
      SMap.size_insert_of_lookup_some key val val c.freshItems hc1
    have hstep1 : addStep key val c =
        ⟨c.staleItems, c.freshItems.insert key val, c.maxItemMapLen⟩ := by
      rw [addStep_eq, addLocked_of_not_full c key val hlt]
    have hstep2 : addStep key val
        (⟨c.staleItems, c.freshItems.insert key val, c.maxItemMapLen⟩ :
          BoundedCache V) =
        ⟨c.staleItems, (c.freshItems.insert key val).insert key val,
          c.maxItemMapLen⟩ := by
      rw [addStep_eq, addLocked_of_not_full _ key val (by simpa [hsize2] using hlt)]
    rw [hstep1, hstep2]
    simp [Len, hsize2,
      SMap.size_insert_of_lookup_some key val val _
        (SMap.lookup_insert_self key val c.freshItems)]

theorem len_addStep_three (key : String) (val : V) (b : BoundedCache V)
    (h1 : 1 ≤ b.maxItemMapLen) :
    Len (addStep key val (addStep key val (addStep key val b))) =
      Len (addStep key val (addStep key val b)) := by
  have hhalf := maxItemMapLen_addStep key val b
  exact len_addStep_addStep_of_fresh key val (addStep key val b)
    (by rw [hhalf]; exact h1)
    (lookup_addStep_self key val b)
    (by rw [hhalf]; exact freshSize_addStep_le key val b h1)

/-- Claim C7 amended: a second identical `Add(key, value)` can still
change `size()` once (when it triggers a rotation), but from the second
identical `Add` on, the size never changes again, whatever the starting
state with positive capacity. -/
theorem repeated_add_len_stable (b : BoundedCache V) (key : String) (val : V)
    (h1 : 1 ≤ b.maxItemMapLen) (n : Nat) :
    Len ((addStep key val)^[n] (addStep key val (addStep key val b))) =
      Len (addStep key val (addStep key val b)) := by
  have hhalf : ∀ m : Nat, ((addStep key val)^[m] b).maxItemMapLen = b.maxItemMapLen := by
    intro m
    induction m with
    | zero => rfl
    | succ m ih =>
      rw [Function.iterate_succ_apply', maxItemMapLen_addStep]
      exact ih
  induction n with
  | zero => rfl
  | succ n ih =>
    have e2 : (addStep key val)^[n] (addStep key val (addStep key val b)) =
        addStep key val (addStep key val ((addStep key val)^[n] b)) := by
      rw [← Function.iterate_succ_apply, ← Function.iterate_succ_apply,
        Function.iterate_succ_apply', Function.iterate_succ_apply']
    have e1 : (addStep key val)^[n + 1] (addStep key val (addStep key val b)) =
        addStep key val (addStep key val (addStep key val ((addStep key val)^[n] b))) := by
      rw [Function.iterate_succ_apply', e2]
    calc Len ((addStep key val)^[n + 1] (addStep key val (addStep key val b)))
        = Len (addStep key val (addStep key val (addStep key val ((addStep key val)^[n] b)))) := by
          rw [e1]
      _ = Len (addStep key val (addStep key val ((addStep key val)^[n] b))) :=
          len_addStep_three key val ((addStep key val)^[n] b) (by rw [hhalf n]; exact h1)
      _ = Len ((addStep key val)^[n] (addStep key val (addStep key val b))) := by
          rw [e2]
      _ = Len (addStep key val (addStep key val b)) := ih

theorem repeated_add_len_stable_witness :
    1 ≤ cexBase.maxItemMapLen ∧
    Len ((addStep "a" 0)^[3] (addStep "a" 0 (addStep "a" 0 cexBase))) =
      Len (addStep "a" 0 (addStep "a" 0 cexBase)) :=
  ⟨by decide, repeated_add_len_stable cexBase "a" 0 (by decide) 3⟩

theorem old_addLocked_state_eq (b : BoundedCache V) (key : String) (val : V) :
    (Old.addLocked b key val).1 = (addLocked b key val).1 := by
  unfold Old.addLocked addLocked
  by_cases hfull : b.freshItems.size ≥ b.maxItemMapLen <;> simp [hfull]

theorem old_addLocked_evicted (b : BoundedCache V) (key : String) (val : V) :
    (Old.addLocked b key val).2 = decide (b.maxItemMapLen ≤ b.freshItems.size) ∧
    (addLocked b key val).2 =
      (decide (b.maxItemMapLen ≤ b.freshItems.size) && decide (0 < b.staleItems.size)) := by
  by_cases hfull : b.maxItemMapLen ≤ b.freshItems.size
  · constructor
    · unfold Old.addLocked
      simp [hfull]
    · rw [addLocked_of_full b key val hfull]
      simp [hfull]
  · constructor
    · unfold Old.addLocked
      simp [hfull]
    · rw [addLocked_of_not_full b key val (Nat.not_le.1 hfull)]
      simp [hfull]

theorem old_get_agrees (b : BoundedCache V) (key : String) :
    (Old.Get b key).1 = (Get b key).1 ∧ (Old.Get b key).2.2 = (Get b key).2.2 := by
  unfold Old.Get Get
  cases hf : b.freshItems.lookup key with
  | some v => exact ⟨rfl, rfl⟩
  | none =>
    cases hs : b.staleItems.lookup key with
    | some v => exact ⟨rfl, old_addLocked_state_eq _ key v⟩
    | none => exact ⟨rfl, rfl⟩

theorem old_getOrCreate_agrees (b : BoundedCache V) (key : String) (create : Unit → V) :
    (Old.GetOrCreate b key create).1.1 = (GetOrCreate b key create).1.1 ∧
    (Old.GetOrCreate b key create).1.2.1 = (GetOrCreate b key create).1.2.1 ∧
    (Old.GetOrCreate b key create).2 = (GetOrCreate b key create).2 := by
  unfold Old.GetOrCreate GetOrCreate
  cases hf : b.freshItems.lookup key with
  | some v => exact ⟨rfl, rfl, rfl⟩
  | none =>
    cases hs : b.staleItems.lookup key with
    | some v => exact ⟨rfl, rfl, old_addLocked_state_eq _ key v⟩
    | none => exact ⟨rfl, rfl, old_addLocked_state_eq b key (create ())⟩

/-- Claim C8 is refuted at `maxItems = 3` (accepted by both constructors
with different capacities, 2 versus 4) and at `maxItems = 2` (identical
starting states, but the old implementation reports `evicted = true` on
the rotation of an empty stale generation while the new one reports
`false`). -/
theorem old_new_implementations_diverge :
    (Old.New Nat 3).map Old.MaxItems = some 2 ∧
    (NewBoundedCache Nat 3).map MaxItems = some 4 ∧
    Old.New Nat 2 = some cexBase ∧
    NewBoundedCache Nat 2 = some cexBase ∧
    (Old.Add (Old.Add cexBase "a" 0).1 "b" 1).2 = true ∧
    (BoundedCache.Add (BoundedCache.Add cexBase "a" 0).1 "b" 1).2 = false := by
  refine ⟨?_, ?_, ?_, ?_, ?_, ?_⟩ <;> decide

/-- Claim C8 amended: the two implementations share the state-transition
algorithm — from equal states, `addLocked`, `Add`, `Get`, `GetOrCreate`,
`Len`, `Purge` and `MaxItems` produce equal successor states and equal
value/found/created results — but they differ in the evicted flag (the
old reports `true` on every rotation, the new only when the discarded
stale generation was non-empty) and in construction (the old rejects
`maxItems < 2` and rounds the half-capacity down, the new rejects
`maxItems < 1` and rounds it up). -/
theorem implementations_agree_up_to_evicted_flag (V : Type u) :
    (∀ (b : BoundedCache V) (key : String) (val : V),
      (Old.addLocked b key val).1 = (addLocked b key val).1 ∧
      (Old.Add b key val).1 = (BoundedCache.Add b key val).1 ∧
      (Old.addLocked b key val).2 = decide (b.maxItemMapLen ≤ b.freshItems.size) ∧
      (addLocked b key val).2 =
        (decide (b.maxItemMapLen ≤ b.freshItems.size) &&
          decide (0 < b.staleItems.size))) ∧
    (∀ (b : BoundedCache V) (key : String),
      (Old.Get b key).1 = (Get b key).1 ∧ (Old.Get b key).2.2 = (Get b key).2.2) ∧
    (∀ (b : BoundedCache V) (key : String) (create : Unit → V),
      (Old.GetOrCreate b key create).1.1 = (GetOrCreate b key create).1.1 ∧
      (Old.GetOrCreate b key create).1.2.1 = (GetOrCreate b key create).1.2.1 ∧
      (Old.GetOrCreate b key create).2 = (GetOrCreate b key create).2) ∧
    (∀ b : BoundedCache V, Old.Len b = Len b ∧ Old.Purge b = Purge b ∧
      Old.MaxItems b = MaxItems b) ∧
    (∀ maxItems : Int,
      (Old.New V maxItems = none ↔ maxItems < 2) ∧
      (NewBoundedCache V maxItems = none ↔ maxItems < 1) ∧
      (∀ bo bn : BoundedCache V, Old.New V maxItems = some bo →
        NewBoundedCache V maxItems = some bn →
        bo.maxItemMapLen = maxItems.toNat / 2 ∧
        bn.maxItemMapLen = (maxItems.toNat + 1) / 2)) := by
  refine ⟨?_, old_get_agrees, old_getOrCreate_agrees, ?_, ?_⟩
  · intro b key val
    exact ⟨old_addLocked_state_eq b key val, old_addLocked_state_eq b key val,
      (old_addLocked_evicted b key val).1, (old_addLocked_evicted b key val).2⟩
  · intro b
    exact ⟨rfl, rfl, rfl⟩
  · intro maxItems
    refine ⟨?_, ?_, ?_⟩
    · unfold Old.New
      by_cases hm : maxItems < 2 <;> simp [hm]
    · unfold NewBoundedCache
      by_cases hm : maxItems < 1 <;> simp [hm]
    · intro bo bn ho hn
      unfold Old.New at ho
      unfold NewBoundedCache at hn
      by_cases hm2 : maxItems < 2
      · simp [hm2] at ho
      · by_cases hm1 : maxItems < 1
        · simp [hm1] at hn
        · simp only [hm2, if_false, Option.some_inj] at ho
          simp only [hm1, if_false, Option.some_inj] at hn
          subst ho
          subst hn
          exact ⟨rfl, rfl⟩

theorem implementations_agree_witness :
    Old.New Nat 3 = some (⟨SMap.empty, SMap.empty, 1⟩ : BoundedCache Nat) ∧
    NewBoundedCache Nat 3 = some (⟨SMap.empty, SMap.empty, 2⟩ : BoundedCache Nat) ∧
    (1 : Nat) = Int.toNat 3 / 2 ∧ (2 : Nat) = (Int.toNat 3 + 1) / 2 := by
  have h := ((implementations_agree_up_to_evicted_flag Nat).2.2.2.2 3).2.2
    ⟨SMap.empty, SMap.empty, 1⟩ ⟨SMap.empty, SMap.empty, 2⟩ (by decide) (by decide)
  exact ⟨by decide, by decide, h.1.symm, h.2.symm⟩
